import Mathlib

/-!
Verification of the CrossModalRAG incremental synchronization / lexical
retrieval / evaluation core, as a shallow embedding of the Python source
(`src/crossmodalrag/`).  Pure functions of the source become Lean functions;
the SQLite store becomes an explicit record of table rows; library calls of
the Python standard library that are external to the repository (sha256
hashing, `json.dumps`, ISO-8601 date parsing) are threaded as explicit
function parameters, since only their functional determinism matters to the
properties below.
-/

namespace CrossModalRAG

/-! ## Chunker (`chunking.py`) -/

/-- One sliding-window step list of `[start, end)` windows, translated from the
`while start < len(cleaned)` loop of `chunk_text`: `end = min(start + max_chars, len)`;
emit the slice; stop when `end` reaches the length; otherwise
`start = max(0, end - overlap)` (in `Nat`, truncated subtraction is exactly
`max 0 (end - overlap)`).  `fuel` is a bound on the number of iterations,
a modelling device only: the caller passes `len + 1`, which lemma
`chunkWindows_fuel_irrelevant`-style arguments below show is never exhausted
when `overlap < max_chars`. -/
def chunkWindows (len maxChars overlap : Nat) : Nat → Nat → List (Nat × Nat)
  | 0, _ => []
  | fuel + 1, start =>
    if start < len then
      let e := min (start + maxChars) len
      if e = len then [(start, e)]
      else (start, e) :: chunkWindows len maxChars overlap fuel (e - overlap)
    else []

/-- The loop of `chunk_text`, emitting the character slices
`cleaned[start:end]` of each window. -/
def chunkLoop (cleaned : List Char) (maxChars overlap : Nat) (fuel start : Nat) :
    List (List Char) :=
  (chunkWindows cleaned.length maxChars overlap fuel start).map
    (fun w => ((cleaned.drop w.1).take (w.2 - w.1)))

/-- Python `str.strip()` on the character sequence: drop whitespace from both
ends.  (Python also strips some Unicode spaces; the repository's data is
ASCII, where the two agree.) -/
def pyStrip (cs : List Char) : List Char :=
  ((cs.dropWhile Char.isWhitespace).reverse.dropWhile Char.isWhitespace).reverse

/-- `chunk_text(text, max_chars, overlap)` from `chunking.py`:
strip surrounding whitespace; empty → `[]`; short (≤ `max_chars`) → the whole
cleaned text; otherwise the sliding-window loop. -/
def chunk_text (text : String) (maxChars : Nat := 900) (overlap : Nat := 120) :
    List String :=
  let cleaned := pyStrip text.data
  if cleaned = [] then []
  else if cleaned.length ≤ maxChars then [String.mk cleaned]
  else
    (chunkLoop cleaned maxChars overlap (cleaned.length + 1) 0).map
      (fun cs => String.mk cs)

/-! ## Persisted schema (`db.py`)

The `DDL` script of `db.py` creates table `sources` with exactly the columns
listed below — note the absence of a `source_fingerprint` column. -/

/-- Columns of `CREATE TABLE sources` in the `DDL` of `db.py`. -/
def sourcesTableColumns : List String :=
  ["id", "source_type", "source_uri", "timestamp", "title", "metadata_json"]

/-- Columns named by the `INSERT INTO sources` statement of
`_upsert_note_source` (`ingest/notes.py`). -/
def noteInsertColumns : List String :=
  ["source_type", "source_uri", "source_fingerprint", "timestamp", "title", "metadata_json"]

/-- Columns named by the `SELECT ... FROM sources` of `_upsert_note_source`. -/
def noteSelectColumns : List String :=
  ["id", "source_fingerprint", "timestamp"]

/-- SQLite accepts an INSERT naming only columns that exist in the table;
otherwise it raises `no such column` / `table has no column named`.  This is
the outcome of the first `_upsert_note_source` INSERT against a database
freshly initialized from the `DDL`. -/
def insertOutcome (tableCols insertCols : List String) : Except String Unit :=
  match insertCols.find? (fun c => ¬ tableCols.contains c) with
  | some c => .error ("table sources has no column named " ++ c)
  | none => .ok ()

/-! ## Store model

The SQLite store becomes an explicit record of table rows.  `id` columns are
`AUTOINCREMENT`, modelled by `next*Id` counters; nullable columns are
`Option`. -/

/-- A row of the `sources` table, as manipulated by the ingestion code
(which reads and writes a `source_fingerprint` column; see `C1` for the
mismatch with the shipped `DDL`). -/
structure SourceRow where
  id : Nat
  source_type : String
  source_uri : String
  source_fingerprint : Option String
  timestamp : Option String
  title : Option String
  metadata_json : Option String
  deriving Repr, DecidableEq

/-- A row of the `evidence_chunks` table. -/
structure ChunkRow where
  id : Nat
  source_id : Nat
  chunk_index : Nat
  chunk_text : String
  metadata_json : Option String
  deriving Repr, DecidableEq

/-- A row of the `queries_eval` table. -/
structure EvalRow where
  id : Nat
  query_text : String
  expected_source_uris : Option String
  deriving Repr, DecidableEq

/-- The whole store. -/
structure Db where
  sources : List SourceRow
  chunks : List ChunkRow
  evalRows : List EvalRow
  nextSourceId : Nat
  nextChunkId : Nat
  nextEvalId : Nat
  deriving Repr, DecidableEq

/-! ## Fingerprint synchronizer (`ingest/notes.py` / `ingest/git.py`)

`_upsert_note_source` and `_upsert_git_source` are textually identical up to
the `source_type` constant (`"note"` vs `"git_commit"`), so they are embedded
once, parameterized by that constant. -/

/-- `WHERE source_type = ? AND source_uri = ?`. -/
def matchesKey (stype uri : String) (s : SourceRow) : Bool :=
  s.source_type == stype && s.source_uri == uri

/-- `SELECT id, source_fingerprint, timestamp FROM sources WHERE
source_type = ? AND source_uri = ? ORDER BY id ASC`. -/
def selectSourcesByKey (db : Db) (stype uri : String) : List SourceRow :=
  List.insertionSort (fun a b => a.id ≤ b.id) (db.sources.filter (matchesKey stype uri))

/-- `DELETE FROM evidence_chunks WHERE source_id = ?`. -/
def deleteChunksOfSource (db : Db) (sid : Nat) : Db :=
  { db with chunks := db.chunks.filter (fun c => c.source_id != sid) }

/-- `DELETE FROM sources WHERE id = ?`. -/
def deleteSourceRow (db : Db) (sid : Nat) : Db :=
  { db with sources := db.sources.filter (fun s => s.id != sid) }

/-- The `for row in rows[:-1]` duplicate-collapse loop of the upserts:
delete each non-canonical row's chunks, then the row itself. -/
def collapseDuplicates (db : Db) (dups : List SourceRow) : Db :=
  dups.foldl (fun d r => deleteSourceRow (deleteChunksOfSource d r.id) r.id) db

/-- The legacy-backfill `UPDATE sources SET source_fingerprint = ?, title = ?,
metadata_json = ? WHERE id = ?` (timestamp untouched). -/
def backfillSource (db : Db) (sid : Nat) (fp title meta : String) : Db :=
  { db with sources := db.sources.map (fun s =>
      if s.id = sid then
        { s with source_fingerprint := some fp, title := some title,
                 metadata_json := some meta }
      else s) }

/-- The changed-content `UPDATE sources SET source_fingerprint = ?,
timestamp = ?, title = ?, metadata_json = ? WHERE id = ?`. -/
def updateSourceChanged (db : Db) (sid : Nat) (fp ts title meta : String) : Db :=
  { db with sources := db.sources.map (fun s =>
      if s.id = sid then
        { s with source_fingerprint := some fp, timestamp := some ts,
                 title := some title, metadata_json := some meta }
      else s) }

/-- `_upsert_note_source` / `_upsert_git_source`: returns the mutated store,
the canonical source id, and the `unchanged` flag. -/
def upsertSourceRow (stype : String) (db : Db)
    (uri fp ts title meta : String) : Db × Nat × Bool :=
  let rows := selectSourcesByKey db stype uri
  match rows.getLast? with
  | none =>
    let newId := db.nextSourceId
    let row : SourceRow :=
      { id := newId, source_type := stype, source_uri := uri,
        source_fingerprint := some fp, timestamp := some ts,
        title := some title, metadata_json := some meta }
    ({ db with sources := db.sources ++ [row], nextSourceId := newId + 1 },
     newId, false)
  | some canon =>
    let canonicalId := canon.id
    let isLegacyUnchanged :=
      canon.source_fingerprint == none && canon.timestamp == some ts
    let isUnchanged := canon.source_fingerprint == some fp || isLegacyUnchanged
    let db1 := collapseDuplicates db rows.dropLast
    if isUnchanged then
      let db2 :=
        if canon.source_fingerprint == none then
          backfillSource db1 canonicalId fp title meta
        else db1
      (db2, canonicalId, true)
    else
      (updateSourceChanged db1 canonicalId fp ts title meta, canonicalId, false)

/-- `_upsert_note_source` (`ingest/notes.py`). -/
def upsertNoteSource (db : Db) (uri fp ts title meta : String) : Db × Nat × Bool :=
  upsertSourceRow "note" db uri fp ts title meta

/-- `_upsert_git_source` (`ingest/git.py`). -/
def upsertGitSource (db : Db) (uri fp ts title meta : String) : Db × Nat × Bool :=
  upsertSourceRow "git_commit" db uri fp ts title meta

/-! ## Note ingestion caller (`ingest_notes` loop body) -/

/-- One note file as seen by the `ingest_notes` loop: path, contents and
`stat` results, with the ISO rendering of the mtime already applied
(`_iso_mtime` is a pure function of the mtime). -/
structure NoteFile where
  uri : String
  text : String
  mtimeIso : String
  stem : String
  size : Nat
  deriving Repr, DecidableEq

/-- `json.dumps({"modality": "text", "source_type": "note"})`. -/
def noteChunkMeta : String :=
  "\x7b\"modality\": \"text\", \"source_type\": \"note\"\x7d"

/-- `INSERT INTO evidence_chunks (source_id, chunk_index, chunk_text,
metadata_json) VALUES (?, ?, ?, ?)`. -/
def insertEvidenceChunk (db : Db) (sid idx : Nat) (text meta : String) : Db :=
  { db with
    chunks := db.chunks ++
      [{ id := db.nextChunkId, source_id := sid, chunk_index := idx,
         chunk_text := text, metadata_json := some meta }],
    nextChunkId := db.nextChunkId + 1 }

/-- The body of the `for path in md_files` loop of `ingest_notes`, for one
file: fingerprint, upsert, and (when changed) delete-and-rechunk.  Returns
the store and the number of chunk rows inserted for this file.  `hash` is
Python's `hashlib.sha256(...).hexdigest()` and `metaEnc` is
`json.dumps({"bytes": size, "fingerprint": fp})`, both external library
functions threaded as parameters. -/
def ingestNoteFile (hash : String → String) (metaEnc : Nat → String → String)
    (db : Db) (f : NoteFile) : Db × Nat :=
  let fp := hash f.text
  let meta := metaEnc f.size fp
  let (db1, sid, unchanged) := upsertNoteSource db f.uri fp f.mtimeIso f.stem meta
  if unchanged then (db1, 0)
  else
    let db2 := deleteChunksOfSource db1 sid
    let pieces := chunk_text f.text
    let db3 := pieces.enum.foldl
      (fun d p => insertEvidenceChunk d sid p.1 p.2 noteChunkMeta) db2
    (db3, pieces.length)

/-- `ingest_notes` over the sorted file list of a vault: folds the per-file
body, accumulating the inserted-chunk count. -/
def ingestNotes (hash : String → String) (metaEnc : Nat → String → String)
    (db : Db) (files : List NoteFile) : Db × Nat :=
  files.foldl
    (fun acc f =>
      let r := ingestNoteFile hash metaEnc acc.1 f
      (r.1, acc.2 + r.2))
    (db, 0)

/-! ## Lemmas about the duplicate-collapse loop -/

theorem collapseDuplicates_spec (L : List SourceRow) (db : Db) :
    collapseDuplicates db L =
      { db with
        sources := db.sources.filter (fun s => L.all (fun r => s.id != r.id)),
        chunks := db.chunks.filter (fun c => L.all (fun r => c.source_id != r.id)) } := by
  induction L generalizing db with
  | nil =>
    simp [collapseDuplicates]
  | cons r L ih =>
    show collapseDuplicates (deleteSourceRow (deleteChunksOfSource db r.id) r.id) L = _
    rw [ih]
    simp only [deleteSourceRow, deleteChunksOfSource, List.filter_filter, List.all_cons]
    refine congrArg₂ (fun a b => { db with sources := a, chunks := b }) ?_ ?_
    · exact List.filter_congr (fun s _ => Bool.and_comm _ _)
    · exact List.filter_congr (fun c _ => Bool.and_comm _ _)

theorem selectSourcesByKey_eq_filter (db : Db) (stype uri : String)
    (hsorted : List.Pairwise (fun a b : SourceRow => a.id < b.id) db.sources) :
    selectSourcesByKey db stype uri = db.sources.filter (matchesKey stype uri) :=
  List.Sorted.insertionSort_eq
    ((hsorted.filter _).imp (fun hab => le_of_lt hab))

theorem dropLast_id_lt_getLast {l : List SourceRow}
    (hp : List.Pairwise (fun a b : SourceRow => a.id < b.id) l) (hne : l ≠ []) :
    ∀ s ∈ l.dropLast, s.id < (l.getLast hne).id := by
  have hp' : List.Pairwise (fun a b : SourceRow => a.id < b.id)
      (l.dropLast ++ [l.getLast hne]) := by
    rw [List.dropLast_append_getLast hne]; exact hp
  rcases List.pairwise_append.mp hp' with ⟨-, -, hrel⟩
  intro s hs
  exact hrel s hs _ (List.mem_singleton.mpr rfl)

theorem filter_all_dropLast {l : List SourceRow}
    (hp : List.Pairwise (fun a b : SourceRow => a.id < b.id) l) (hne : l ≠ []) :
    l.filter (fun s => l.dropLast.all (fun r => s.id != r.id)) = [l.getLast hne] := by
  conv_lhs => rw [← List.dropLast_append_getLast hne]
  rw [List.filter_append]
  have hd : (l.dropLast ++ [l.getLast hne]).dropLast = l.dropLast := by simp
  rw [hd]
  have h1 : l.dropLast.filter (fun s => l.dropLast.all (fun r => s.id != r.id)) = [] := by
    rw [List.filter_eq_nil_iff]
    intro a ha hall
    have := (List.all_eq_true.mp hall) a ha
    simp at this
  have h2 : ([l.getLast hne].filter (fun s => l.dropLast.all (fun r => s.id != r.id)))
      = [l.getLast hne] := by
    have hallc : l.dropLast.all (fun r => (l.getLast hne).id != r.id) = true := by
      rw [List.all_eq_true]
      intro r hr
      have hlt := dropLast_id_lt_getLast hp hne r hr
      simp only [bne_iff_ne, ne_eq]
      omega
    simp [List.filter_cons, hallc]
  rw [h1, h2, List.nil_append]

theorem filter_matches_map_update (stype uri : String) (g : SourceRow → SourceRow)
    (hg : ∀ s, matchesKey stype uri (g s) = matchesKey stype uri s)
    (l : List SourceRow) :
    (l.map g).filter (matchesKey stype uri) = (l.filter (matchesKey stype uri)).map g := by
  rw [List.filter_map]
  exact congrArg _ (List.filter_congr (fun s _ => hg s))

theorem upsert_common_shape (stype uri fp ts title meta : String)
    (db db' : Db) (cid : Nat) (unch : Bool)
    (hsorted : List.Pairwise (fun a b : SourceRow => a.id < b.id) db.sources)
    (hne : db.sources.filter (matchesKey stype uri) ≠ [])
    (h : upsertSourceRow stype db uri fp ts title meta = (db', cid, unch)) :
    cid = ((db.sources.filter (matchesKey stype uri)).getLast hne).id ∧
    db'.chunks = db.chunks.filter (fun c =>
      (db.sources.filter (matchesKey stype uri)).dropLast.all
        (fun r => c.source_id != r.id)) ∧
    (∃ canon', db'.sources.filter (matchesKey stype uri) = [canon'] ∧
      canon'.id = ((db.sources.filter (matchesKey stype uri)).getLast hne).id) := by
  have hsel := selectSourcesByKey_eq_filter db stype uri hsorted
  have hlast := List.getLast?_eq_getLast (db.sources.filter (matchesKey stype uri)) hne
  simp only [upsertSourceRow, hsel, hlast] at h
  have hcol := collapseDuplicates_spec
    (db.sources.filter (matchesKey stype uri)).dropLast db
  have hkey : (db.sources.filter (fun s =>
        (db.sources.filter (matchesKey stype uri)).dropLast.all
          (fun r => s.id != r.id))).filter (matchesKey stype uri)
      = [(db.sources.filter (matchesKey stype uri)).getLast hne] := by
    rw [List.filter_filter]
    have hswap : db.sources.filter (fun a => matchesKey stype uri a &&
          (db.sources.filter (matchesKey stype uri)).dropLast.all
            (fun r => a.id != r.id))
        = (db.sources.filter (matchesKey stype uri)).filter (fun s =>
            (db.sources.filter (matchesKey stype uri)).dropLast.all
              (fun r => s.id != r.id)) := by
      rw [List.filter_filter]
      exact (List.filter_congr (fun s _ => Bool.and_comm _ _)).symm
    rw [hswap]
    exact filter_all_dropLast (hsorted.filter _) hne
  have hgBackfill : ∀ (sid : Nat) (s : SourceRow),
      matchesKey stype uri
        (if s.id = sid then
          { s with source_fingerprint := some fp, title := some title,
                   metadata_json := some meta }
         else s) = matchesKey stype uri s := by
    intro sid s
    by_cases hs : s.id = sid <;> simp [matchesKey, hs]
  have hgChanged : ∀ (sid : Nat) (s : SourceRow),
      matchesKey stype uri
        (if s.id = sid then
          { s with source_fingerprint := some fp, timestamp := some ts,
                   title := some title, metadata_json := some meta }
         else s) = matchesKey stype uri s := by
    intro sid s
    by_cases hs : s.id = sid <;> simp [matchesKey, hs]
  split at h
  · -- unchanged; two sub-branches on the backfill condition
    split at h
    · -- legacy backfill performed
      injection h with h1 h23
      injection h23 with h2 h3
      subst h1; subst h2
      refine ⟨rfl, by simp only [hcol, backfillSource], ?_⟩
      have hfil : (backfillSource
            (collapseDuplicates db
              (db.sources.filter (matchesKey stype uri)).dropLast)
            ((db.sources.filter (matchesKey stype uri)).getLast hne).id
            fp title meta).sources.filter (matchesKey stype uri)
          = [(fun s : SourceRow =>
              if s.id = ((db.sources.filter (matchesKey stype uri)).getLast hne).id
              then { s with source_fingerprint := some fp, title := some title,
                            metadata_json := some meta }
              else s) ((db.sources.filter (matchesKey stype uri)).getLast hne)] := by
        simp only [backfillSource, hcol]
        rw [filter_matches_map_update stype uri _ (hgBackfill _)]
        rw [hkey]
        simp
      exact ⟨_, hfil, by simp⟩
    · -- unchanged, fingerprint already present
      injection h with h1 h23
      injection h23 with h2 h3
      subst h1; subst h2
      refine ⟨rfl, by rw [hcol], ?_⟩
      refine ⟨_, ?_, rfl⟩
      show (collapseDuplicates _ _).sources.filter (matchesKey stype uri) = _
      rw [hcol]
      exact hkey
  · -- changed: full update
    injection h with h1 h23
    injection h23 with h2 h3
    subst h1; subst h2
    refine ⟨rfl, by simp only [hcol, updateSourceChanged], ?_⟩
    have hfil : (updateSourceChanged
          (collapseDuplicates db
            (db.sources.filter (matchesKey stype uri)).dropLast)
          ((db.sources.filter (matchesKey stype uri)).getLast hne).id
          fp ts title meta).sources.filter (matchesKey stype uri)
        = [(fun s : SourceRow =>
            if s.id = ((db.sources.filter (matchesKey stype uri)).getLast hne).id
            then { s with source_fingerprint := some fp, timestamp := some ts,
                          title := some title, metadata_json := some meta }
            else s) ((db.sources.filter (matchesKey stype uri)).getLast hne)] := by
      simp only [updateSourceChanged, hcol]
      rw [filter_matches_map_update stype uri _ (hgChanged _)]
      rw [hkey]
      simp
    exact ⟨_, hfil, by simp⟩

/-- C2: for every `(source_type, source_uri)` with N ≥ 1 pre-existing source
rows, one synchronization call leaves exactly one matching row — the one with
the highest prior id — only that row's chunks survive among the matching
rows' chunks (all other rows' chunks are deleted with their rows), and
non-matching chunks are untouched.  Stated for the generic upsert
`upsertSourceRow stype`, of which `upsertNoteSource` (`stype = "note"`) and
`upsertGitSource` (`stype = "git_commit"`) are the two instances appearing in
the source. -/
theorem C2_duplicate_collapse (stype uri fp ts title meta : String)
    (db db' : Db) (cid : Nat) (unch : Bool)
    (hsorted : List.Pairwise (fun a b : SourceRow => a.id < b.id) db.sources)
    (hne : db.sources.filter (matchesKey stype uri) ≠ [])
    (h : upsertSourceRow stype db uri fp ts title meta = (db', cid, unch)) :
    ∃ canon ∈ db.sources.filter (matchesKey stype uri),
      (∀ s ∈ db.sources.filter (matchesKey stype uri), s.id ≤ canon.id) ∧
      cid = canon.id ∧
      (∃ canon', db'.sources.filter (matchesKey stype uri) = [canon'] ∧
        canon'.id = canon.id) ∧
      db'.chunks = db.chunks.filter (fun c =>
        (db.sources.filter (matchesKey stype uri)).dropLast.all
          (fun r => c.source_id != r.id)) ∧
      (∀ c ∈ db.chunks, c.source_id = canon.id → c ∈ db'.chunks) ∧
      (∀ s ∈ (db.sources.filter (matchesKey stype uri)).dropLast,
        ∀ c ∈ db.chunks, c.source_id = s.id → c ∉ db'.chunks) := by
  obtain ⟨hcid, hchunks, hcanon'⟩ :=
    upsert_common_shape stype uri fp ts title meta db db' cid unch hsorted hne h
  refine ⟨(db.sources.filter (matchesKey stype uri)).getLast hne,
    List.getLast_mem hne, ?_, hcid, hcanon', hchunks, ?_, ?_⟩
  · intro s hs
    have hsplit : s ∈ (db.sources.filter (matchesKey stype uri)).dropLast ++
        [(db.sources.filter (matchesKey stype uri)).getLast hne] := by
      rw [List.dropLast_append_getLast hne]; exact hs
    rcases List.mem_append.mp hsplit with hdl | hl
    · exact le_of_lt (dropLast_id_lt_getLast (hsorted.filter _) hne s hdl)
    · rw [List.mem_singleton.mp hl]
  · intro c hc hcs
    rw [hchunks]
    refine List.mem_filter.mpr ⟨hc, ?_⟩
    rw [List.all_eq_true]
    intro r hr
    have hlt := dropLast_id_lt_getLast (hsorted.filter _) hne r hr
    simp only [bne_iff_ne, ne_eq]
    omega
  · intro s hs c hc hcs hmem
    rw [hchunks] at hmem
    have hall := (List.mem_filter.mp hmem).2
    have hbne := (List.all_eq_true.mp hall) s hs
    simp only [bne_iff_ne, ne_eq] at hbne
    exact hbne hcs

/-- A store holding two duplicate `note` rows for uri `"u"` (ids 1 and 2, one
chunk each) and an unrelated `git_commit` row (id 3, one chunk). -/
def exampleDupDb : Db :=
  { sources := [
      { id := 1, source_type := "note", source_uri := "u",
        source_fingerprint := some "old1", timestamp := some "t1",
        title := some "a", metadata_json := some "m1" },
      { id := 2, source_type := "note", source_uri := "u",
        source_fingerprint := some "old2", timestamp := some "t2",
        title := some "b", metadata_json := some "m2" },
      { id := 3, source_type := "git_commit", source_uri := "g",
        source_fingerprint := some "gf", timestamp := some "t3",
        title := some "c", metadata_json := some "m3" }],
    chunks := [
      { id := 1, source_id := 1, chunk_index := 0, chunk_text := "c1",
        metadata_json := some "x" },
      { id := 2, source_id := 2, chunk_index := 0, chunk_text := "c2",
        metadata_json := some "x" },
      { id := 3, source_id := 3, chunk_index := 0, chunk_text := "c3",
        metadata_json := some "x" }],
    evalRows := [], nextSourceId := 4, nextChunkId := 4, nextEvalId := 1 }

/-- Witness for C2 at a concrete two-duplicate store. -/
theorem C2_duplicate_collapse_witness :
    ∃ canon ∈ exampleDupDb.sources.filter (matchesKey "note" "u"),
      (∀ s ∈ exampleDupDb.sources.filter (matchesKey "note" "u"), s.id ≤ canon.id) ∧
      (upsertSourceRow "note" exampleDupDb "u" "new" "t9" "ti" "m9").2.1 = canon.id ∧
      (∃ canon', (upsertSourceRow "note" exampleDupDb "u" "new" "t9" "ti" "m9").1.sources.filter
          (matchesKey "note" "u") = [canon'] ∧ canon'.id = canon.id) ∧
      (upsertSourceRow "note" exampleDupDb "u" "new" "t9" "ti" "m9").1.chunks =
        exampleDupDb.chunks.filter (fun c =>
          (exampleDupDb.sources.filter (matchesKey "note" "u")).dropLast.all
            (fun r => c.source_id != r.id)) ∧
      (∀ c ∈ exampleDupDb.chunks, c.source_id = canon.id →
        c ∈ (upsertSourceRow "note" exampleDupDb "u" "new" "t9" "ti" "m9").1.chunks) ∧
      (∀ s ∈ (exampleDupDb.sources.filter (matchesKey "note" "u")).dropLast,
        ∀ c ∈ exampleDupDb.chunks, c.source_id = s.id →
          c ∉ (upsertSourceRow "note" exampleDupDb "u" "new" "t9" "ti" "m9").1.chunks) :=
  C2_duplicate_collapse "note" "u" "new" "t9" "ti" "m9" exampleDupDb _ _ _
    (by decide) (by decide) rfl

/-! ## Idempotence of synchronization for unchanged content (C3) -/

theorem upsertSourceRow_single (stype : String) (db : Db)
    (uri fp ts title meta : String) (canon : SourceRow)
    (hone : db.sources.filter (matchesKey stype uri) = [canon]) :
    upsertSourceRow stype db uri fp ts title meta =
      (if canon.source_fingerprint == some fp ||
          (canon.source_fingerprint == none && canon.timestamp == some ts) then
        (if canon.source_fingerprint == none then
          backfillSource db canon.id fp title meta
         else db, canon.id, true)
       else (updateSourceChanged db canon.id fp ts title meta, canon.id, false)) := by
  simp only [upsertSourceRow, selectSourcesByKey, hone, List.insertionSort,
    List.orderedInsert, List.getLast?_singleton, List.dropLast_single]
  rfl

/-- C3 (amended): for a source with a single matching canonical row, if the
incoming fingerprint equals the stored one, re-ingestion inserts zero chunk
rows and returns the store completely unchanged; if the canonical row instead
satisfies the legacy null-fingerprint timestamp rule, zero chunk rows are
inserted and the chunk table is untouched, but the canonical row itself is
backfilled in place (fingerprint/title/metadata).  The original claim's
"leaves the full snapshot unchanged" fails in the legacy case — see the
counterexample. -/
theorem C3_unchanged_is_idempotent (hash : String → String)
    (metaEnc : Nat → String → String) (db : Db) (f : NoteFile)
    (canon : SourceRow)
    (hone : db.sources.filter (matchesKey "note" f.uri) = [canon]) :
    (canon.source_fingerprint = some (hash f.text) →
      ingestNoteFile hash metaEnc db f = (db, 0)) ∧
    (canon.source_fingerprint = none → canon.timestamp = some f.mtimeIso →
      ingestNoteFile hash metaEnc db f =
        (backfillSource db canon.id (hash f.text) f.stem
          (metaEnc f.size (hash f.text)), 0) ∧
      (backfillSource db canon.id (hash f.text) f.stem
          (metaEnc f.size (hash f.text))).chunks = db.chunks) := by
  have hup := upsertSourceRow_single "note" db f.uri (hash f.text) f.mtimeIso
    f.stem (metaEnc f.size (hash f.text)) canon hone
  constructor
  · intro hfp
    simp only [ingestNoteFile, upsertNoteSource, hup, hfp]
    simp
  · intro hfp hts
    simp only [ingestNoteFile, upsertNoteSource, hup, hfp, hts]
    simp [backfillSource]

/-- A store whose only `note` row for uri `"u"` is a legacy row: null
fingerprint, timestamp `"T"`, with one existing chunk. -/
def exampleLegacyDb : Db :=
  { sources := [
      { id := 1, source_type := "note", source_uri := "u",
        source_fingerprint := none, timestamp := some "T",
        title := some "legacy", metadata_json := some "{}" }],
    chunks := [
      { id := 1, source_id := 1, chunk_index := 0, chunk_text := "legacy content",
        metadata_json := some "{}" }],
    evalRows := [], nextSourceId := 2, nextChunkId := 2, nextEvalId := 1 }

/-- The note file whose re-ingestion hits the legacy rule of
`exampleLegacyDb` (same uri, same recorded timestamp). -/
def exampleLegacyFile : NoteFile :=
  { uri := "u", text := "legacy content", mtimeIso := "T", stem := "legacy",
    size := 14 }

/-- Counterexample to C3 as stated: the legacy null-fingerprint timestamp
rule holds for `exampleLegacyDb`'s canonical row, the repeated ingestion call
does insert zero chunk rows, yet the full snapshot of source rows is NOT
unchanged — the canonical row's fingerprint is backfilled in place. -/
theorem C3_counterexample :
    (exampleLegacyDb.sources.filter (matchesKey "note" exampleLegacyFile.uri)
        = [exampleLegacyDb.sources.head (by decide)]) ∧
    (exampleLegacyDb.sources.head (by decide)).source_fingerprint = none ∧
    (exampleLegacyDb.sources.head (by decide)).timestamp
        = some exampleLegacyFile.mtimeIso ∧
    (ingestNoteFile (fun _ => "FP") (fun _ _ => "{}") exampleLegacyDb
        exampleLegacyFile).2 = 0 ∧
    (ingestNoteFile (fun _ => "FP") (fun _ _ => "{}") exampleLegacyDb
        exampleLegacyFile).1.sources ≠ exampleLegacyDb.sources := by
  decide

/-- A store whose only `note` row for uri `"u"` already carries the incoming
fingerprint `"FP"`. -/
def exampleUnchangedDb : Db :=
  { sources := [
      { id := 1, source_type := "note", source_uri := "u",
        source_fingerprint := some "FP", timestamp := some "T",
        title := some "n", metadata_json := some "{}" }],
    chunks := [
      { id := 1, source_id := 1, chunk_index := 0, chunk_text := "body",
        metadata_json := some "{}" }],
    evalRows := [], nextSourceId := 2, nextChunkId := 2, nextEvalId := 1 }

/-- Witness for C3 (amended) at a concrete store with matching fingerprint. -/
theorem C3_unchanged_is_idempotent_witness :
    ingestNoteFile (fun _ => "FP") (fun _ _ => "{}") exampleUnchangedDb
      { uri := "u", text := "body", mtimeIso := "T", stem := "n", size := 4 }
      = (exampleUnchangedDb, 0) :=
  (C3_unchanged_is_idempotent (fun _ => "FP") (fun _ _ => "{}")
    exampleUnchangedDb
    { uri := "u", text := "body", mtimeIso := "T", stem := "n", size := 4 }
    { id := 1, source_type := "note", source_uri := "u",
      source_fingerprint := some "FP", timestamp := some "T",
      title := some "n", metadata_json := some "{}" }
    (by decide)).1 rfl

/-! ## Eval-query upsert (`evaluation.py`, `upsert_eval_queries`) -/

/-- `SELECT id, expected_source_uris FROM queries_eval WHERE query_text = ?
ORDER BY id ASC`. -/
def selectEvalByText (db : Db) (qt : String) : List EvalRow :=
  List.insertionSort (fun a b => a.id ≤ b.id)
    (db.evalRows.filter (fun r => r.query_text == qt))

/-- The body of the `for q in queries` loop of `upsert_eval_queries`:
insert when no row matches the text; otherwise `rows[0]` is canonical
(update its `expected_source_uris` when different — Python compares
`str(row or "")` against `json.dumps(...)`) and the remaining `rows[1:]`
are deleted.  `jsonDumps` is Python's `json.dumps` threaded as a
parameter. -/
def upsertEvalQuery (jsonDumps : List String → String) (db : Db)
    (qt : String) (uris : List String) : Db :=
  let expectedJson := jsonDumps uris
  match selectEvalByText db qt with
  | [] =>
    { db with
      evalRows := db.evalRows ++
        [{ id := db.nextEvalId, query_text := qt,
           expected_source_uris := some expectedJson }],
      nextEvalId := db.nextEvalId + 1 }
  | first :: rest =>
    let canonicalId := first.id
    let db1 :=
      if (first.expected_source_uris.getD "") != expectedJson then
        { db with evalRows := db.evalRows.map (fun r =>
            if r.id = canonicalId then
              { r with expected_source_uris := some expectedJson }
            else r) }
      else db
    rest.foldl
      (fun d dup =>
        { d with evalRows := d.evalRows.filter (fun r => r.id != dup.id) })
      db1

/-- `upsert_eval_queries`: fold the per-query body over the list; the return
value is `len(queries)`. -/
def upsertEvalQueries (jsonDumps : List String → String) (db : Db)
    (queries : List (String × List String)) : Db × Nat :=
  (queries.foldl (fun d q => upsertEvalQuery jsonDumps d q.1 q.2) db,
   queries.length)

theorem selectEvalByText_eq_filter (db : Db) (qt : String)
    (hsorted : List.Pairwise (fun a b : EvalRow => a.id < b.id) db.evalRows) :
    selectEvalByText db qt = db.evalRows.filter (fun r => r.query_text == qt) :=
  List.Sorted.insertionSort_eq
    ((hsorted.filter _).imp (fun hab => le_of_lt hab))

theorem foldl_delete_eval (L : List EvalRow) (db : Db) :
    (L.foldl
      (fun d dup =>
        { d with evalRows := d.evalRows.filter (fun r => r.id != dup.id) })
      db) =
    { db with evalRows :=
        db.evalRows.filter (fun r => L.all (fun dup => r.id != dup.id)) } := by
  induction L generalizing db with
  | nil => simp
  | cons dup L ih =>
    show L.foldl _ { db with evalRows := db.evalRows.filter _ } = _
    rw [ih]
    simp only [List.filter_filter, List.all_cons]
    exact congrArg (fun a => { db with evalRows := a })
      (List.filter_congr (fun r _ => Bool.and_comm _ _))

theorem pairwise_eval_id_inj {l : List EvalRow}
    (hp : List.Pairwise (fun a b : EvalRow => a.id < b.id) l) :
    ∀ a ∈ l, ∀ b ∈ l, a.id = b.id → a = b := by
  induction l with
  | nil => intro a ha; cases ha
  | cons x l ih =>
    rcases List.pairwise_cons.mp hp with ⟨hx, hl⟩
    intro a ha b hb hab
    rcases List.mem_cons.mp ha with rfl | ha'
    · rcases List.mem_cons.mp hb with rfl | hb'
      · rfl
      · exact absurd hab (by have := hx b hb'; omega)
    · rcases List.mem_cons.mp hb with rfl | hb'
      · exact absurd hab (by have := hx a ha'; omega)
      · exact ih hl a ha' b hb' hab

/-- C6 (amended): when `upsert_eval_queries` finds multiple rows with the same
`query_text`, the FIRST (lowest-id) row survives as the canonical row — not
the highest-id one as in source synchronization — it receives the updated
`expected_source_uris` when different, every other duplicate is deleted, and
rows with a different `query_text` are untouched. -/
theorem C6_eval_upsert_collapse (jsonDumps : List String → String)
    (db : Db) (qt : String) (uris : List String)
    (hsorted : List.Pairwise (fun a b : EvalRow => a.id < b.id) db.evalRows)
    (hne : db.evalRows.filter (fun r => r.query_text == qt) ≠ []) :
    ∃ first ∈ db.evalRows.filter (fun r => r.query_text == qt),
      (∀ r ∈ db.evalRows.filter (fun r => r.query_text == qt), first.id ≤ r.id) ∧
      (∃ canon',
        (upsertEvalQuery jsonDumps db qt uris).evalRows.filter
          (fun r => r.query_text == qt) = [canon'] ∧
        canon'.id = first.id ∧
        canon'.expected_source_uris =
          (if (first.expected_source_uris.getD "") != jsonDumps uris
           then some (jsonDumps uris) else first.expected_source_uris)) ∧
      (∀ r ∈ db.evalRows, r.query_text ≠ qt →
        r ∈ (upsertEvalQuery jsonDumps db qt uris).evalRows) ∧
      (∀ r ∈ (upsertEvalQuery jsonDumps db qt uris).evalRows,
        r.query_text ≠ qt → r ∈ db.evalRows) := by
  obtain ⟨first, rest, hfil⟩ := List.exists_cons_of_ne_nil hne
  have hpfil : List.Pairwise (fun a b : EvalRow => a.id < b.id) (first :: rest) := by
    rw [← hfil]; exact hsorted.filter _
  rcases List.pairwise_cons.mp hpfil with ⟨hfirstlt, hprest⟩
  have hfirstmem : first ∈ db.evalRows ∧ (first.query_text == qt) = true := by
    have : first ∈ db.evalRows.filter (fun r => r.query_text == qt) := by
      rw [hfil]; exact List.mem_cons_self _ _
    exact List.mem_filter.mp this
  have hrestmem : ∀ d ∈ rest,
      d ∈ db.evalRows ∧ (d.query_text == qt) = true := by
    intro d hd
    have : d ∈ db.evalRows.filter (fun r => r.query_text == qt) := by
      rw [hfil]; exact List.mem_cons_of_mem _ hd
    exact List.mem_filter.mp this
  have hinj := pairwise_eval_id_inj hsorted
  -- the canonical-selection filter collapses `first :: rest` to `[first]`
  have hsel : (first :: rest).filter
      (fun r => rest.all (fun dup => r.id != dup.id)) = [first] := by
    rw [List.filter_cons]
    have hfirstall : (rest.all (fun dup => first.id != dup.id)) = true := by
      rw [List.all_eq_true]
      intro d hd
      have := hfirstlt d hd
      simp only [bne_iff_ne, ne_eq]
      omega
    rw [if_pos (by simp [hfirstall])]
    have hrest0 : rest.filter (fun r => rest.all (fun dup => r.id != dup.id)) = [] := by
      rw [List.filter_eq_nil_iff]
      intro d hd hall
      have := (List.all_eq_true.mp hall) d hd
      simp at this
    rw [hrest0]
  -- reduce the upsert body
  have hbody : upsertEvalQuery jsonDumps db qt uris =
      (let db1 :=
        if (first.expected_source_uris.getD "") != jsonDumps uris then
          { db with evalRows := db.evalRows.map (fun r =>
              if r.id = first.id then
                { r with expected_source_uris := some (jsonDumps uris) }
              else r) }
        else db
       { db1 with evalRows :=
          db1.evalRows.filter (fun r => rest.all (fun dup => r.id != dup.id)) }) := by
    simp only [upsertEvalQuery, selectEvalByText_eq_filter db qt hsorted, hfil]
    rw [foldl_delete_eval]
  refine ⟨first, by rw [hfil]; exact List.mem_cons_self _ _, ?_, ?_, ?_, ?_⟩
  · intro r hr
    rw [hfil] at hr
    rcases List.mem_cons.mp hr with rfl | hr'
    · exact le_rfl
    · exact le_of_lt (hfirstlt r hr')
  · -- exactly one matching row remains, with first's id and updated payload
    rw [hbody]
    by_cases hupd : ((first.expected_source_uris.getD "") != jsonDumps uris) = true
    · simp only [hupd, if_true]
      have hmapfil : ((db.evalRows.map (fun r =>
            if r.id = first.id then
              { r with expected_source_uris := some (jsonDumps uris) }
            else r)).filter (fun r => rest.all (fun dup => r.id != dup.id))).filter
            (fun r => r.query_text == qt)
          = [{ first with expected_source_uris := some (jsonDumps uris) }] := by
        rw [List.filter_filter, List.filter_map]
        have hcomp : ∀ r ∈ db.evalRows,
            ((fun a => (a.query_text == qt) &&
                rest.all (fun dup => a.id != dup.id)) ∘
              (fun r => if r.id = first.id then
                { r with expected_source_uris := some (jsonDumps uris) }
               else r)) r
            = ((fun a => (a.query_text == qt) &&
                rest.all (fun dup => a.id != dup.id))) r := by
          intro r _
          by_cases hid : r.id = first.id <;> simp [hid]
        rw [List.filter_congr hcomp]
        have : db.evalRows.filter (fun a => (a.query_text == qt) &&
            rest.all (fun dup => a.id != dup.id))
            = [first] := by
          rw [List.filter_congr
            (fun (r : EvalRow) _ => Bool.and_comm (r.query_text == qt)
              (rest.all (fun dup => r.id != dup.id)))]
          rw [← List.filter_filter, hfil, hsel]
        rw [this]
        simp
      exact ⟨_, hmapfil, by simp, by simp [hupd]⟩
    · simp only [hupd, if_false]
      have hfil2 : (db.evalRows.filter
            (fun r => rest.all (fun dup => r.id != dup.id))).filter
            (fun r => r.query_text == qt) = [first] := by
        rw [List.filter_filter]
        rw [List.filter_congr
          (fun (r : EvalRow) _ => Bool.and_comm (r.query_text == qt)
            (rest.all (fun dup => r.id != dup.id)))]
        rw [← List.filter_filter, hfil, hsel]
      exact ⟨first, hfil2, rfl, by simp [hupd]⟩
  · -- rows with a different text survive
    intro r hr htne
    have hrne : r ≠ first := fun hrf => by
      rw [hrf] at htne
      exact htne (by simpa using hfirstmem.2)
    have hidne : r.id ≠ first.id := fun hid =>
      hrne (hinj r hr first hfirstmem.1 hid)
    have hall : (rest.all (fun dup => r.id != dup.id)) = true := by
      rw [List.all_eq_true]
      intro d hd
      have hdne : r ≠ d := fun hrd => by
        rw [hrd] at htne
        exact htne (by simpa using (hrestmem d hd).2)
      simp only [bne_iff_ne, ne_eq]
      exact fun hid => hdne (hinj r hr d (hrestmem d hd).1 hid)
    rw [hbody]
    by_cases hupd : ((first.expected_source_uris.getD "") != jsonDumps uris) = true
    · simp only [hupd, if_true]
      refine List.mem_filter.mpr ⟨?_, hall⟩
      refine List.mem_map.mpr ⟨r, hr, ?_⟩
      rw [if_neg hidne]
    · simp only [hupd, if_false]
      exact List.mem_filter.mpr ⟨hr, hall⟩
  · -- no rows with a different text are fabricated
    intro r hr htne
    rw [hbody] at hr
    by_cases hupd : ((first.expected_source_uris.getD "") != jsonDumps uris) = true
    · simp only [hupd, if_true] at hr
      have hmem := (List.mem_filter.mp hr).1
      obtain ⟨a, ha, hga⟩ := List.mem_map.mp hmem
      by_cases hid : a.id = first.id
      · exfalso
        have haf : a = first := hinj a ha first hfirstmem.1 hid
        rw [if_pos hid] at hga
        apply htne
        rw [← hga, haf]
        simpa using hfirstmem.2
      · rw [if_neg hid] at hga
        rw [← hga]; exact ha
    · simp only [hupd, if_false] at hr
      exact (List.mem_filter.mp hr).1

/-- Two eval rows with the same `query_text` (ids 1 and 2). -/
def exampleEvalDupDb : Db :=
  { sources := [], chunks := [],
    evalRows := [
      { id := 1, query_text := "q", expected_source_uris := some "OLD1" },
      { id := 2, query_text := "q", expected_source_uris := some "OLD2" }],
    nextSourceId := 1, nextChunkId := 1, nextEvalId := 3 }

/-- Counterexample to C6 as stated: with duplicates of ids 1 and 2 for the
same text, the surviving canonical row after `upsert_eval_queries` is the
LOWEST-id row 1 (which receives the update), and the highest-id row 2 is
deleted — the opposite of the claimed "last (highest-id) duplicate
survives". -/
theorem C6_counterexample :
    ((exampleEvalDupDb.evalRows.filter (fun r => r.query_text == "q")).map
        (fun r => r.id) = [1, 2]) ∧
    ((upsertEvalQuery (fun _ => "NEW") exampleEvalDupDb "q" ["x"]).evalRows =
      [{ id := 1, query_text := "q", expected_source_uris := some "NEW" }]) := by
  decide

/-- Witness for C6 (amended) at the concrete duplicate store. -/
theorem C6_eval_upsert_collapse_witness :
    ∃ first ∈ exampleEvalDupDb.evalRows.filter (fun r => r.query_text == "q"),
      (∀ r ∈ exampleEvalDupDb.evalRows.filter (fun r => r.query_text == "q"),
        first.id ≤ r.id) ∧
      (∃ canon',
        (upsertEvalQuery (fun _ => "NEW") exampleEvalDupDb "q" ["x"]).evalRows.filter
          (fun r => r.query_text == "q") = [canon'] ∧
        canon'.id = first.id ∧
        canon'.expected_source_uris =
          (if (first.expected_source_uris.getD "") != (fun _ : List String => "NEW") ["x"]
           then some ((fun _ : List String => "NEW") ["x"])
           else first.expected_source_uris)) ∧
      (∀ r ∈ exampleEvalDupDb.evalRows, r.query_text ≠ "q" →
        r ∈ (upsertEvalQuery (fun _ => "NEW") exampleEvalDupDb "q" ["x"]).evalRows) ∧
      (∀ r ∈ (upsertEvalQuery (fun _ => "NEW") exampleEvalDupDb "q" ["x"]).evalRows,
        r.query_text ≠ "q" → r ∈ exampleEvalDupDb.evalRows) :=
  C6_eval_upsert_collapse (fun _ => "NEW") exampleEvalDupDb "q" ["x"]
    (by decide) (by decide)

/-! ## Chunker properties (C7) -/

theorem chunkWindows_mem_shape (len maxChars overlap : Nat) :
    ∀ (fuel start : Nat), ∀ w ∈ chunkWindows len maxChars overlap fuel start,
      w.1 < len ∧ w.2 = min (w.1 + maxChars) len := by
  intro fuel
  induction fuel with
  | zero =>
    intro start w hw
    simp [chunkWindows] at hw
  | succ fuel ih =>
    intro start w hw
    simp only [chunkWindows] at hw
    split at hw
    · rename_i hstart
      split at hw
      · rcases List.mem_singleton.mp hw with rfl
        exact ⟨hstart, rfl⟩
      · rcases List.mem_cons.mp hw with rfl | hw'
        · exact ⟨hstart, rfl⟩
        · exact ih _ w hw'
    · cases hw

theorem chunkWindows_cover (len maxChars overlap : Nat) (hov : overlap < maxChars) :
    ∀ (fuel start : Nat), len - start ≤ fuel → start < len →
      ∀ i, start ≤ i → i < len →
        ∃ w ∈ chunkWindows len maxChars overlap fuel start, w.1 ≤ i ∧ i < w.2 := by
  intro fuel
  induction fuel with
  | zero =>
    intro start hfuel hstart i hi1 hi2
    omega
  | succ fuel ih =>
    intro start hfuel hstart i hi1 hi2
    simp only [chunkWindows, if_pos hstart]
    by_cases he : min (start + maxChars) len = len
    · refine ⟨(start, min (start + maxChars) len), ?_, hi1, ?_⟩
      · rw [if_pos he]; exact List.mem_singleton.mpr rfl
      · show i < min (start + maxChars) len
        omega
    · rw [if_neg he]
      have hel : min (start + maxChars) len = start + maxChars := by omega
      by_cases hi3 : i < start + maxChars
      · exact ⟨(start, min (start + maxChars) len), List.mem_cons_self _ _,
          hi1, by omega⟩
      · have hrec := ih (min (start + maxChars) len - overlap)
          (by omega) (by omega) i (by omega) hi2
        obtain ⟨w, hw, hwi⟩ := hrec
        exact ⟨w, List.mem_cons_of_mem _ hw, hwi⟩

/-- C7: under the precondition `overlap < max_size`, `chunk_text` trims first
(empty trimmed text → `[]`; short trimmed text → one chunk equal to the whole
trimmed text), otherwise emits the clipped windows `[start, start+max_size)`
with `next start = max(0, end - overlap)` and stops when `end` reaches the
length; every chunk has length ≤ `max_size`, the windows cover every
character position of the trimmed input, and
`chunk("hello world", 50, 10) = ["hello world"]`. -/
theorem C7_chunker (text : String) (maxChars overlap : Nat)
    (hov : overlap < maxChars) :
    (pyStrip text.data = [] → chunk_text text maxChars overlap = []) ∧
    (pyStrip text.data ≠ [] → (pyStrip text.data).length ≤ maxChars →
      chunk_text text maxChars overlap = [String.mk (pyStrip text.data)]) ∧
    (∀ c ∈ chunk_text text maxChars overlap, c.length ≤ maxChars) ∧
    (maxChars < (pyStrip text.data).length →
      chunk_text text maxChars overlap =
        (chunkWindows (pyStrip text.data).length maxChars overlap
          ((pyStrip text.data).length + 1) 0).map
          (fun w => String.mk (((pyStrip text.data).drop w.1).take (w.2 - w.1))) ∧
      ∀ i, i < (pyStrip text.data).length →
        ∃ w ∈ chunkWindows (pyStrip text.data).length maxChars overlap
            ((pyStrip text.data).length + 1) 0,
          w.1 ≤ i ∧ i < w.2) ∧
    chunk_text "hello world" 50 10 = ["hello world"] := by
  refine ⟨?_, ?_, ?_, ?_, by decide⟩
  · intro h
    simp [chunk_text, h]
  · intro h1 h2
    simp [chunk_text, h1, h2]
  · intro c hc
    by_cases h1 : pyStrip text.data = []
    · simp [chunk_text, h1] at hc
    · by_cases h2 : (pyStrip text.data).length ≤ maxChars
      · simp [chunk_text, h1, h2] at hc
        rw [hc]
        simpa using h2
      · simp only [chunk_text, chunkLoop, if_neg h1, if_neg h2,
          List.map_map, List.mem_map] at hc
        obtain ⟨w, hw, hc'⟩ := hc
        have hshape := chunkWindows_mem_shape (pyStrip text.data).length
          maxChars overlap ((pyStrip text.data).length + 1) 0 w hw
        rw [← hc']
        show (String.mk (((pyStrip text.data).drop w.1).take (w.2 - w.1))).length
          ≤ maxChars
        simp only [String.length_mk, List.length_take, List.length_drop]
        omega
  · intro h2
    constructor
    · simp only [chunk_text, chunkLoop,
        if_neg (by intro h; rw [h] at h2; simp at h2 :
          ¬ pyStrip text.data = []),
        if_neg (by omega : ¬ (pyStrip text.data).length ≤ maxChars),
        List.map_map]
      rfl
    · intro i hi
      exact chunkWindows_cover (pyStrip text.data).length maxChars overlap hov
        ((pyStrip text.data).length + 1) 0 (by omega) (by omega) i (by omega) hi

/-- Witness for C7: the concrete example from the claim, via the theorem. -/
theorem C7_chunker_witness : chunk_text "hello world" 50 10 = ["hello world"] :=
  (C7_chunker "hello world" 50 10 (by decide)).2.2.2.2

deriving instance DecidableEq for Except

/-! ## C1: the missing `source_fingerprint` column -/

/-- C1 (code bug): the `DDL` of `db.py` creates the `sources` table WITHOUT a
`source_fingerprint` column, while both the SELECT and the INSERT of
`_upsert_note_source` name that column; on a freshly initialized database the
first note ingestion therefore fails with `no such column` instead of storing
a non-null fingerprint (the repository's own tests
`test_ingest_fingerprinting.py` select `source_fingerprint` right after
`init_db`, so the DDL contradicts them). -/
theorem C1_missing_fingerprint_column :
    ("source_fingerprint" ∉ sourcesTableColumns) ∧
    ("source_fingerprint" ∈ noteInsertColumns) ∧
    ("source_fingerprint" ∈ noteSelectColumns) ∧
    insertOutcome sourcesTableColumns noteInsertColumns =
      .error "table sources has no column named source_fingerprint" := by
  decide

/-! ## Git ingestion (`ingest/git.py`) and the ambient author filter (C5) -/

/-- One parsed commit record, as produced by `_load_commit_rows` (a
collaborator shelling out to `git log` / `git show`). -/
structure CommitRec where
  sha : String
  ts : String
  subject : String
  body : String
  author_name : String
  author_email : String
  patch : String
  deriving Repr, DecidableEq

/-- The ambient process environment, and `os.getenv(key, "")`. -/
def getenvD (env : List (String × String)) (key : String) : String :=
  ((env.find? (fun p => p.1 == key)).map (fun p => p.2)).getD ""

/-- `_load_target_author` (`ingest/git.py`): reads
`TARGET_AUTHOR_NAME` / `TARGET_AUTHOR_EMAIL` from the ambient environment,
strips them, and raises when either is empty. -/
def loadTargetAuthor (env : List (String × String)) :
    Except String (String × String) :=
  let name := String.mk (pyStrip (getenvD env "TARGET_AUTHOR_NAME").data)
  let email := String.mk (pyStrip (getenvD env "TARGET_AUTHOR_EMAIL").data)
  if name = "" || email = "" then
    .error "TARGET_AUTHOR_NAME and TARGET_AUTHOR_EMAIL must be set in environment or .env."
  else .ok (name, email)

/-- `_delete_source_and_chunks` (`ingest/git.py`): select all `git_commit`
rows for the uri ordered by id and delete each row's chunks and the row. -/
def deleteGitSourceAndChunks (db : Db) (uri : String) : Db :=
  collapseDuplicates db
    (List.insertionSort (fun a b => a.id ≤ b.id)
      (db.sources.filter (matchesKey "git_commit" uri)))

/-- `json.dumps({"modality": "code+text", ...})` of the git chunk metadata,
threaded as a parameter (external library function of the record). -/
def ingestGitCommitBody (hash : String → String)
    (metaEnc : CommitRec → String → String)
    (chunkMetaEnc : CommitRec → String)
    (tname temail repoPath : String) (acc : Db × Nat) (row : CommitRec) :
    Db × Nat :=
  let uri := repoPath ++ "@" ++ row.sha
  if row.author_name != tname || row.author_email != temail then
    (deleteGitSourceAndChunks acc.1 uri, acc.2)
  else
    let combined := String.mk (pyStrip
      ("commit: " ++ row.subject ++ "\n\n" ++ row.body ++ "\n\n" ++ row.patch).data)
    let fp := hash combined
    let r := upsertGitSource acc.1 uri fp row.ts (row.subject.take 200)
      (metaEnc row fp)
    if r.2.2 then (r.1, acc.2)
    else
      let db2 := deleteChunksOfSource r.1 r.2.1
      let pieces := chunk_text combined 1400 180
      (pieces.enum.foldl
        (fun d p => insertEvidenceChunk d r.2.1 p.1 p.2 (chunkMetaEnc row)) db2,
       acc.2 + pieces.length)

/-- `ingest_git` (`ingest/git.py`): load the author filter from the AMBIENT
ENVIRONMENT (not from an argument), then fold the per-commit body over the
parsed commit records; returns the inserted-chunk count.  Note the signature:
`ingest_git(conn, repo_path, max_commits=300)` accepts no author
parameters. -/
def ingestGit (env : List (String × String)) (hash : String → String)
    (metaEnc : CommitRec → String → String)
    (chunkMetaEnc : CommitRec → String)
    (db : Db) (repoPath : String) (commits : List CommitRec) :
    Except String (Db × Nat) :=
  match loadTargetAuthor env with
  | .error e => .error e
  | .ok (tname, temail) =>
    .ok (commits.foldl
      (ingestGitCommitBody hash metaEnc chunkMetaEnc tname temail repoPath)
      (db, 0))

/-- Python parameter list of `def ingest_git(conn, repo_path, max_commits=300)`. -/
def ingestGitParams : List String := ["conn", "repo_path", "max_commits"]

/-- Keyword arguments of the `ingest_git(...)` call inside `seed_sample_data`
(`sample_data.py`). -/
def seedSampleIngestGitKwargs : List String :=
  ["repo_path", "max_commits", "target_author_name", "target_author_email"]

/-- The empty store. -/
def emptyDb : Db :=
  { sources := [], chunks := [], evalRows := [],
    nextSourceId := 1, nextChunkId := 1, nextEvalId := 1 }

/-- A sample commit authored by Alice. -/
def exampleCommit : CommitRec :=
  { sha := "s1", ts := "t1", subject := "sub", body := "b",
    author_name := "Alice", author_email := "a@x", patch := "p" }

/-- C5 (code bug): the git ingestion does NOT take its authorship filter as an
explicit argument.  (i) The seeding caller passes `target_author_name` /
`target_author_email` keyword arguments that are not in `ingest_git`'s
parameter list (a `TypeError` at call time); (ii) `ingest_git` reads the
`TARGET_AUTHOR_*` environment variables: with an empty environment it raises,
and two runs with identical explicit arguments, store state, and repository
content but different environments produce different stores — the result is
not independent of ambient process state. -/
theorem C5_author_filter_is_ambient :
    ("target_author_name" ∈ seedSampleIngestGitKwargs ∧
     "target_author_name" ∉ ingestGitParams ∧
     "target_author_email" ∈ seedSampleIngestGitKwargs ∧
     "target_author_email" ∉ ingestGitParams) ∧
    ingestGit [] (fun _ => "FP") (fun _ _ => "{}") (fun _ => "{}")
      emptyDb "r" [exampleCommit] =
      .error "TARGET_AUTHOR_NAME and TARGET_AUTHOR_EMAIL must be set in environment or .env." ∧
    ingestGit [("TARGET_AUTHOR_NAME", "Alice"), ("TARGET_AUTHOR_EMAIL", "a@x")]
      (fun _ => "FP") (fun _ _ => "{}") (fun _ => "{}")
      emptyDb "r" [exampleCommit] ≠
    ingestGit [("TARGET_AUTHOR_NAME", "Bob"), ("TARGET_AUTHOR_EMAIL", "b@x")]
      (fun _ => "FP") (fun _ _ => "{}") (fun _ => "{}")
      emptyDb "r" [exampleCommit] := by
  decide

/-! ## Evaluation harness (`evaluation.py`, `run_eval`) -/

/-- `_unique_source_uris_in_order`: keep the first occurrence of each uri.
(Python maintains a `seen` set which is always exactly the set of elements of
`out`, so membership is tested against the output list.) -/
def uniqueInOrder (l : List String) : List String :=
  l.foldl (fun out u => if u ∈ out then out else out ++ [u]) []

/-- `_first_correct_rank`'s `for idx, uri in enumerate(..., start=1)` loop. -/
def firstCorrectRankAux (expected : List String) : Nat → List String → Option Nat
  | _, [] => none
  | idx, u :: rest =>
    if u ∈ expected then some idx
    else firstCorrectRankAux expected (idx + 1) rest

/-- `_first_correct_rank(retrieved_source_uris, expected)`. -/
def firstCorrectRank (retrieved expected : List String) : Option Nat :=
  if expected = [] then none
  else firstCorrectRankAux expected 1 retrieved

/-- The per-query fields of `EvalQueryResult` that the aggregate metrics
consume. -/
structure EvalQueryOutcome where
  first_correct_rank : Option Nat
  recall_hit : Bool
  citation_hit : Bool
  deriving Repr, DecidableEq

/-- The per-query body of `run_eval`'s loop.  `retrieveUris` stands for
`[hit.source_uri for hit in retrieve(conn, query, top_k)]` — the retrieval
engine behind its interface; the metric claims hold for any retrieval whose
result is truncated to `top_k`. -/
def runEvalQuery (retrieveUris : String → List String) (top_k : Nat)
    (q : String × List String) : EvalQueryOutcome :=
  let uris := uniqueInOrder (retrieveUris q.1)
  let rank := firstCorrectRank uris q.2
  { first_correct_rank := rank,
    recall_hit := match rank with
      | none => false
      | some r => decide (r ≤ top_k),
    citation_hit := rank == some 1 }

/-- The aggregate summary of `run_eval` (metrics as exact rationals, the
real-arithmetic idealization of Python's float arithmetic). -/
structure EvalSummary where
  query_count : Nat
  top_k : Nat
  recall_at_k : ℚ
  mrr_at_k : ℚ
  citation_hit_rate : ℚ
  results : List EvalQueryOutcome
  deriving Repr, DecidableEq

/-- `run_eval`: per-query outcomes, then the zero-query early return, then
the three aggregate ratios. -/
def runEval (retrieveUris : String → List String) (top_k : Nat)
    (queries : List (String × List String)) : EvalSummary :=
  let results := queries.map (runEvalQuery retrieveUris top_k)
  if results = [] then
    { query_count := 0, top_k := top_k, recall_at_k := 0, mrr_at_k := 0,
      citation_hit_rate := 0, results := [] }
  else
    { query_count := results.length, top_k := top_k,
      recall_at_k :=
        ((results.filter (fun r => r.recall_hit)).length : ℚ) / results.length,
      mrr_at_k :=
        (results.map (fun r =>
          match r.first_correct_rank with
          | some rk => (1 : ℚ) / rk
          | none => 0)).sum / results.length,
      citation_hit_rate :=
        ((results.filter (fun r => r.citation_hit)).length : ℚ) / results.length,
      results := results }

theorem uniqueInOrder_length_le (l : List String) :
    (uniqueInOrder l).length ≤ l.length := by
  have key : ∀ (l : List String) (acc : List String),
      (l.foldl (fun out u => if u ∈ out then out else out ++ [u]) acc).length ≤
        acc.length + l.length := by
    intro l
    induction l with
    | nil => intro acc; simp
    | cons u l ih =>
      intro acc
      simp only [List.foldl_cons]
      refine le_trans (ih _) ?_
      by_cases hu : u ∈ acc
      · simp only [if_pos hu, List.length_cons]
        omega
      · simp only [if_neg hu, List.length_append, List.length_cons,
          List.length_nil]
        omega
  simpa using key l []

theorem firstCorrectRankAux_bounds (expected : List String) :
    ∀ (l : List String) (i r : Nat),
      firstCorrectRankAux expected i l = some r → i ≤ r ∧ r < i + l.length := by
  intro l
  induction l with
  | nil => intro i r h; simp [firstCorrectRankAux] at h
  | cons u rest ih =>
    intro i r h
    simp only [firstCorrectRankAux] at h
    split at h
    · rcases Option.some.inj h with rfl
      simp
    · have := ih (i + 1) r h
      constructor <;> [omega; (simp only [List.length_cons]; omega)]

theorem runEvalQuery_rank_bounds (retrieveUris : String → List String)
    (top_k : Nat) (q : String × List String) (r : Nat)
    (h : (runEvalQuery retrieveUris top_k q).first_correct_rank = some r) :
    1 ≤ r ∧ r ≤ (retrieveUris q.1).length := by
  simp only [runEvalQuery, firstCorrectRank] at h
  split at h
  · cases h
  · have hb := firstCorrectRankAux_bounds q.2 _ 1 r h
    have hu := uniqueInOrder_length_le (retrieveUris q.1)
    omega

theorem runEvalQuery_cit_imp_recall (retrieveUris : String → List String)
    (top_k : Nat) (q : String × List String)
    (hq : (retrieveUris q.1).length ≤ top_k)
    (hcit : (runEvalQuery retrieveUris top_k q).citation_hit = true) :
    (runEvalQuery retrieveUris top_k q).recall_hit = true := by
  have hrank : (runEvalQuery retrieveUris top_k q).first_correct_rank = some 1 := by
    have := hcit
    simp only [runEvalQuery] at this ⊢
    exact eq_of_beq this
  have hb := runEvalQuery_rank_bounds retrieveUris top_k q 1 hrank
  simp only [runEvalQuery] at hrank ⊢
  rw [hrank]
  simp
  omega

/-- C8: for every summary produced by `run_eval`,
`citation_hit_rate ≤ recall_at_k` and all three metrics lie in `[0, 1]`;
with zero eval queries all three are `0` and no error is raised.  `retrieveUris`
is the retrieval engine behind its interface; the hypothesis records that its
result is truncated to `top_k`, which holds for the engine (`scored[:top_k]`,
see C4). -/
theorem C8_eval_metric_bounds (retrieveUris : String → List String)
    (top_k : Nat) (queries : List (String × List String))
    (hlen : ∀ q ∈ queries, (retrieveUris q.1).length ≤ top_k) :
    (runEval retrieveUris top_k queries).citation_hit_rate ≤
      (runEval retrieveUris top_k queries).recall_at_k ∧
    0 ≤ (runEval retrieveUris top_k queries).recall_at_k ∧
    (runEval retrieveUris top_k queries).recall_at_k ≤ 1 ∧
    0 ≤ (runEval retrieveUris top_k queries).mrr_at_k ∧
    (runEval retrieveUris top_k queries).mrr_at_k ≤ 1 ∧
    0 ≤ (runEval retrieveUris top_k queries).citation_hit_rate ∧
    (runEval retrieveUris top_k queries).citation_hit_rate ≤ 1 ∧
    (queries = [] →
      (runEval retrieveUris top_k queries).recall_at_k = 0 ∧
      (runEval retrieveUris top_k queries).mrr_at_k = 0 ∧
      (runEval retrieveUris top_k queries).citation_hit_rate = 0) := by
  by_cases hq : queries = []
  · subst hq
    simp [runEval]
  · have hres : queries.map (runEvalQuery retrieveUris top_k) ≠ [] := by
      simpa using hq
    have hn : 0 < ((queries.map (runEvalQuery retrieveUris top_k)).length : ℚ) := by
      have : 0 < (queries.map (runEvalQuery retrieveUris top_k)).length :=
        List.length_pos.mpr hres
      exact_mod_cast this
    simp only [runEval, if_neg hres]
    refine ⟨?_, ?_, ?_, ?_, ?_, ?_, ?_, fun h => absurd h hq⟩
    · -- citation_hit_rate ≤ recall_at_k
      refine (div_le_div_iff_of_pos_right hn).mpr ?_
      have hcount : ((queries.map (runEvalQuery retrieveUris top_k)).filter
            (fun r => r.citation_hit)).length ≤
          ((queries.map (runEvalQuery retrieveUris top_k)).filter
            (fun r => r.recall_hit)).length := by
        rw [← List.countP_eq_length_filter, ← List.countP_eq_length_filter]
        refine List.countP_mono_left ?_
        intro r hr hcit
        obtain ⟨q, hq', rfl⟩ := List.mem_map.mp hr
        exact runEvalQuery_cit_imp_recall retrieveUris top_k q (hlen q hq') hcit
      exact_mod_cast hcount
    · exact div_nonneg (Nat.cast_nonneg _) (le_of_lt hn)
    · refine (div_le_one hn).mpr ?_
      exact_mod_cast List.length_filter_le _ _
    · refine div_nonneg ?_ (le_of_lt hn)
      refine List.sum_nonneg ?_
      intro x hx
      obtain ⟨r, _, rfl⟩ := List.mem_map.mp hx
      rcases hrk : r.first_correct_rank with _ | rk
      · simp [hrk]
      · simp only [hrk]
        positivity
    · refine (div_le_one hn).mpr ?_
      have hbound := List.sum_le_card_nsmul
        ((queries.map (runEvalQuery retrieveUris top_k)).map (fun r =>
          match r.first_correct_rank with
          | some rk => (1 : ℚ) / rk
          | none => 0)) 1 ?_
      · simpa [nsmul_eq_mul] using hbound
      · intro x hx
        obtain ⟨r, hr, rfl⟩ := List.mem_map.mp hx
        obtain ⟨q, _, rfl⟩ := List.mem_map.mp hr
        rcases hrk : (runEvalQuery retrieveUris top_k q).first_correct_rank
          with _ | rk
        · simp [hrk]
        · have hb := runEvalQuery_rank_bounds retrieveUris top_k q rk hrk
          simp only [hrk]
          refine (div_le_one (by exact_mod_cast hb.1.trans_lt' Nat.zero_lt_one :
            (0 : ℚ) < rk)).mpr ?_
          exact_mod_cast hb.1
    · exact div_nonneg (Nat.cast_nonneg _) (le_of_lt hn)
    · refine (div_le_one hn).mpr ?_
      exact_mod_cast List.length_filter_le _ _

/-- Witness for C8 at a one-query store whose retrieval hits the expected
uri. -/
theorem C8_eval_metric_bounds_witness :
    (runEval (fun _ => ["a"]) 3 [("q", ["a"])]).citation_hit_rate ≤
      (runEval (fun _ => ["a"]) 3 [("q", ["a"])]).recall_at_k ∧
    0 ≤ (runEval (fun _ => ["a"]) 3 [("q", ["a"])]).recall_at_k ∧
    (runEval (fun _ => ["a"]) 3 [("q", ["a"])]).recall_at_k ≤ 1 ∧
    0 ≤ (runEval (fun _ => ["a"]) 3 [("q", ["a"])]).mrr_at_k ∧
    (runEval (fun _ => ["a"]) 3 [("q", ["a"])]).mrr_at_k ≤ 1 ∧
    0 ≤ (runEval (fun _ => ["a"]) 3 [("q", ["a"])]).citation_hit_rate ∧
    (runEval (fun _ => ["a"]) 3 [("q", ["a"])]).citation_hit_rate ≤ 1 ∧
    ([("q", ["a"])] = ([] : List (String × List String)) →
      (runEval (fun _ => ["a"]) 3 [("q", ["a"])]).recall_at_k = 0 ∧
      (runEval (fun _ => ["a"]) 3 [("q", ["a"])]).mrr_at_k = 0 ∧
      (runEval (fun _ => ["a"]) 3 [("q", ["a"])]).citation_hit_rate = 0) :=
  C8_eval_metric_bounds (fun _ => ["a"]) 3 [("q", ["a"])] (by decide)

/-! ## Sample-data purge (`sample_data.py`, `purge_seeded_sample_data`)

The purge selects rows with SQL `LIKE`, whose patterns treat `_` as
"any single character" and `%` as "any run", ASCII case-insensitively (SQLite
default).  The matcher is given recursion fuel `pattern.length + s.length + 1`,
which is never exhausted: every recursive call strictly decreases
`pattern.length + s.length` (proved fuel-irrelevant below). -/

def likeMatchFuel : Nat → List Char → List Char → Bool
  | 0, _, _ => false
  | fuel + 1, p, s =>
    match p with
    | [] => s.isEmpty
    | c :: ps =>
      if c = '%' then
        likeMatchFuel fuel ps s ||
          (match s with
           | [] => false
           | _ :: s' => likeMatchFuel fuel (c :: ps) s')
      else
        match s with
        | [] => false
        | d :: s' =>
          if c = '_' then likeMatchFuel fuel ps s'
          else (c.toLower == d.toLower) && likeMatchFuel fuel ps s'

/-- `s LIKE pattern` (SQLite semantics, no ESCAPE clause). -/
def sqlLike (s pattern : String) : Bool :=
  likeMatchFuel (pattern.length + s.length + 1) pattern.data s.data

theorem likeMatchFuel_irrel : ∀ (n : Nat) (p s : List Char),
    p.length + s.length ≤ n → ∀ (f f' : Nat), n < f → n < f' →
    likeMatchFuel f p s = likeMatchFuel f' p s := by
  intro n
  induction n with
  | zero =>
    intro p s hlen f f' hf hf'
    have hp : p = [] := List.length_eq_zero.mp (by omega)
    have hs : s = [] := List.length_eq_zero.mp (by omega)
    subst hp; subst hs
    cases f with
    | zero => omega
    | succ k =>
      cases f' with
      | zero => omega
      | succ k' => rfl
  | succ n ih =>
    intro p s hlen f f' hf hf'
    cases f with
    | zero => omega
    | succ k =>
      cases f' with
      | zero => omega
      | succ k' =>
        cases p with
        | nil => rfl
        | cons c ps =>
          by_cases hc : c = '%'
          · cases s with
            | nil =>
              simp only [likeMatchFuel, if_pos hc]
              have h1 : likeMatchFuel k ps [] = likeMatchFuel k' ps [] := by
                apply ih ps [] (by simp at hlen ⊢; omega) <;> omega
              rw [h1]
            | cons d s' =>
              simp only [likeMatchFuel, if_pos hc]
              have h1 : likeMatchFuel k ps (d :: s') =
                  likeMatchFuel k' ps (d :: s') := by
                apply ih ps (d :: s') (by simp at hlen ⊢; omega) <;> omega
              have h2 : likeMatchFuel k (c :: ps) s' =
                  likeMatchFuel k' (c :: ps) s' := by
                apply ih (c :: ps) s' (by simp at hlen ⊢; omega) <;> omega
              rw [h1, h2]
          · cases s with
            | nil => simp only [likeMatchFuel, if_neg hc]
            | cons d s' =>
              simp only [likeMatchFuel, if_neg hc]
              have h3 : likeMatchFuel k ps s' = likeMatchFuel k' ps s' := by
                apply ih ps s' (by simp at hlen ⊢; omega) <;> omega
              by_cases hu : c = '_'
              · simp only [if_pos hu, h3]
              · simp only [if_neg hu, h3]

/-- `purge_seeded_sample_data` (`sample_data.py`): select ids of sources whose
uri is `LIKE` `<ws>/sample_vault/%` or `<ws>/sample_repo@%` (the resolved
workspace directory is the argument), delete their chunks and the rows, and
delete eval rows with `query_text LIKE '[sample]%'`; returns the three
rowcounts. -/
def purgeSeededSampleData (db : Db) (workspaceDir : String) :
    Db × Nat × Nat × Nat :=
  let vaultPattern := workspaceDir ++ "/sample_vault" ++ "/%"
  let repoPattern := workspaceDir ++ "/sample_repo" ++ "@%"
  let sourceIds := (db.sources.filter (fun s =>
      sqlLike s.source_uri vaultPattern ||
      sqlLike s.source_uri repoPattern)).map (fun s => s.id)
  let chunkRowsDeleted :=
    (db.chunks.filter (fun c => sourceIds.contains c.source_id)).length
  let sourceRowsDeleted :=
    (db.sources.filter (fun s => sourceIds.contains s.id)).length
  let evalRowsDeleted :=
    (db.evalRows.filter (fun r => sqlLike r.query_text "[sample]%")).length
  ({ db with
      sources := db.sources.filter (fun s => !(sourceIds.contains s.id)),
      chunks := db.chunks.filter (fun c => !(sourceIds.contains c.source_id)),
      evalRows := db.evalRows.filter (fun r => !(sqlLike r.query_text "[sample]%")) },
   sourceRowsDeleted, chunkRowsDeleted, evalRowsDeleted)

/-- A store whose only source's uri is NOT under `/w/sample_vault/` or
`/w/sample_repo@` — the directory is `sampleXvault` — yet matches the purge's
`LIKE` pattern through the `_` wildcard. -/
def exampleNonSampleDb : Db :=
  { sources := [
      { id := 1, source_type := "note", source_uri := "/w/sampleXvault/a.md",
        source_fingerprint := some "f", timestamp := some "t",
        title := some "a", metadata_json := some "{}" }],
    chunks := [
      { id := 1, source_id := 1, chunk_index := 0, chunk_text := "body",
        metadata_json := some "{}" }],
    evalRows := [], nextSourceId := 2, nextChunkId := 2, nextEvalId := 1 }

/-- Counterexample to C9 as stated: a source whose uri does NOT fall under
either sample prefix is nevertheless deleted by the purge, because the SQL
`LIKE` pattern's `_` (in `sample_vault`) matches any character. -/
theorem C9_counterexample :
    ("/w/sample_vault/".data.isPrefixOf "/w/sampleXvault/a.md".data = false) ∧
    ("/w/sample_repo@".data.isPrefixOf "/w/sampleXvault/a.md".data = false) ∧
    (purgeSeededSampleData exampleNonSampleDb "/w").1.sources = [] ∧
    (purgeSeededSampleData exampleNonSampleDb "/w").1.chunks = [] ∧
    (purgeSeededSampleData exampleNonSampleDb "/w").2.1 = 1 := by
  decide

theorem pairwise_source_id_inj {l : List SourceRow}
    (hp : List.Pairwise (fun a b : SourceRow => a.id < b.id) l) :
    ∀ a ∈ l, ∀ b ∈ l, a.id = b.id → a = b := by
  induction l with
  | nil => intro a ha; cases ha
  | cons x l ih =>
    rcases List.pairwise_cons.mp hp with ⟨hx, hl⟩
    intro a ha b hb hab
    rcases List.mem_cons.mp ha with rfl | ha'
    · rcases List.mem_cons.mp hb with rfl | hb'
      · rfl
      · exact absurd hab (by have := hx b hb'; omega)
    · rcases List.mem_cons.mp hb with rfl | hb'
      · exact absurd hab (by have := hx a ha'; omega)
      · exact ih hl a ha' b hb' hab

/-- C9 (amended): the purge deletes exactly the Source and Chunk rows whose
`source_uri` matches the SQL `LIKE` pattern `<ws>/sample_vault/%` or
`<ws>/sample_repo@%` — `LIKE` semantics, where `_` matches any single
character and matching is ASCII case-insensitive, so this is slightly wider
than the literal path prefixes (see the counterexample) — plus the eval rows
whose `query_text` matches `[sample]%`; every other row is left unchanged. -/
theorem C9_purge_exact (db : Db) (ws : String)
    (hsorted : List.Pairwise (fun a b : SourceRow => a.id < b.id) db.sources) :
    (purgeSeededSampleData db ws).1.sources =
      db.sources.filter (fun s =>
        !(sqlLike s.source_uri (ws ++ "/sample_vault" ++ "/%") ||
          sqlLike s.source_uri (ws ++ "/sample_repo" ++ "@%"))) ∧
    (purgeSeededSampleData db ws).1.chunks =
      db.chunks.filter (fun c =>
        !(((db.sources.filter (fun s =>
            sqlLike s.source_uri (ws ++ "/sample_vault" ++ "/%") ||
            sqlLike s.source_uri (ws ++ "/sample_repo" ++ "@%"))).map
              (fun s => s.id)).contains c.source_id)) ∧
    (purgeSeededSampleData db ws).1.evalRows =
      db.evalRows.filter (fun r => !(sqlLike r.query_text "[sample]%")) := by
  refine ⟨?_, rfl, rfl⟩
  show db.sources.filter (fun s =>
      !(((db.sources.filter (fun s =>
          sqlLike s.source_uri (ws ++ "/sample_vault" ++ "/%") ||
          sqlLike s.source_uri (ws ++ "/sample_repo" ++ "@%"))).map
            (fun s => s.id)).contains s.id)) = _
  refine List.filter_congr ?_
  intro s hs
  congr 1
  by_cases hp : (sqlLike s.source_uri (ws ++ "/sample_vault" ++ "/%") ||
      sqlLike s.source_uri (ws ++ "/sample_repo" ++ "@%")) = true
  · rw [hp]
    rw [List.contains_eq_any_beq, List.any_eq_true]
    exact ⟨s.id, List.mem_map.mpr ⟨s, List.mem_filter.mpr ⟨hs, hp⟩, rfl⟩, by simp⟩
  · rw [Bool.eq_false_iff.mpr hp]
    rw [Bool.eq_false_iff]
    intro hcon
    rw [List.contains_eq_any_beq, List.any_eq_true] at hcon
    obtain ⟨x, hx, hbeq⟩ := hcon
    obtain ⟨s', hs', rfl⟩ := List.mem_map.mp hx
    have hmem := List.mem_filter.mp hs'
    have hid : s.id = s'.id := beq_iff_eq.mp hbeq
    have hss : s = s' := pairwise_source_id_inj hsorted s hs s' hmem.1 hid
    rw [← hss] at hmem
    exact hp hmem.2

/-- A store with one sample-vault source, one unrelated source (a chunk
each), one `[sample]` eval row and one plain eval row. -/
def examplePurgeDb : Db :=
  { sources := [
      { id := 1, source_type := "note", source_uri := "/w/sample_vault/a.md",
        source_fingerprint := some "f1", timestamp := some "t1",
        title := some "a", metadata_json := some "{}" },
      { id := 2, source_type := "note", source_uri := "/p/journal.md",
        source_fingerprint := some "f2", timestamp := some "t2",
        title := some "j", metadata_json := some "{}" }],
    chunks := [
      { id := 1, source_id := 1, chunk_index := 0, chunk_text := "sample",
        metadata_json := some "{}" },
      { id := 2, source_id := 2, chunk_index := 0, chunk_text := "personal",
        metadata_json := some "{}" }],
    evalRows := [
      { id := 1, query_text := "[sample] where?", expected_source_uris := some "[]" },
      { id := 2, query_text := "real question", expected_source_uris := some "[]" }],
    nextSourceId := 3, nextChunkId := 3, nextEvalId := 3 }

/-- Witness for C9 (amended) at a concrete mixed store. -/
theorem C9_purge_exact_witness :
    (purgeSeededSampleData examplePurgeDb "/w").1.sources =
      examplePurgeDb.sources.filter (fun s =>
        !(sqlLike s.source_uri ("/w" ++ "/sample_vault" ++ "/%") ||
          sqlLike s.source_uri ("/w" ++ "/sample_repo" ++ "@%"))) ∧
    (purgeSeededSampleData examplePurgeDb "/w").1.chunks =
      examplePurgeDb.chunks.filter (fun c =>
        !(((examplePurgeDb.sources.filter (fun s =>
            sqlLike s.source_uri ("/w" ++ "/sample_vault" ++ "/%") ||
            sqlLike s.source_uri ("/w" ++ "/sample_repo" ++ "@%"))).map
              (fun s => s.id)).contains c.source_id)) ∧
    (purgeSeededSampleData examplePurgeDb "/w").1.evalRows =
      examplePurgeDb.evalRows.filter (fun r => !(sqlLike r.query_text "[sample]%")) :=
  C9_purge_exact examplePurgeDb "/w" (by decide)

/-! ## `parse_expected_source_uris` (`evaluation.py`) -/

/-- The shapes a `raw` value can take at `parse_expected_source_uris`:
`None`, a list (already element-wise `str(x)`-converted, as Python does), a
string, or any other object (whose `str(...)` rendering is carried). -/
inductive PyRaw where
  | pynone
  | pylist (xs : List String)
  | pystr (s : String)
  | pyother (repr : String)
  deriving Repr, DecidableEq

/-- Python `text.split(sep)`: split on every separator occurrence, keeping
empty segments. -/
def pySplit (sep : Char) : List Char → List (List Char)
  | [] => [[]]
  | c :: rest =>
    match pySplit sep rest with
    | [] => []
    | seg :: segs =>
      if c = sep then [] :: seg :: segs else (c :: seg) :: segs

/-- `parse_expected_source_uris(raw)` (`evaluation.py`): `None` → `[]`; a
list → element-wise strings unchanged; a non-list non-string object → its
string rendering; a string → strip, empty → `[]`, else `json.loads`
(`jsonLoads`, the external library parser, `none` = `JSONDecodeError`):
parsed list/string pass through, any other parse result → `[]`, and on
decode failure the comma-separated fallback strips each segment and keeps
the non-empty ones. -/
def parse_expected_source_uris (jsonLoads : String → Option PyRaw) :
    PyRaw → List String
  | .pynone => []
  | .pylist xs => xs
  | .pyother r => [r]
  | .pystr s =>
    let text := String.mk (pyStrip s.data)
    if text = "" then []
    else
      match jsonLoads text with
      | none =>
        ((pySplit ',' text.data).map (fun seg => String.mk (pyStrip seg))).filter
          (fun t => t ≠ "")
      | some (.pylist xs) => xs
      | some (.pystr p) => [p]
      | some .pynone => []
      | some (.pyother _) => []

/-- Counterexample to C10 as stated: a structured-list input is returned
element-wise unchanged, so the result can contain an empty string and an
untrimmed string — not "a list of trimmed non-empty strings". -/
theorem C10_counterexample :
    parse_expected_source_uris (fun _ => none) (.pylist [" x ", ""]) =
      [" x ", ""] ∧
    "" ∈ parse_expected_source_uris (fun _ => none) (.pylist [" x ", ""]) ∧
    " x " ∈ parse_expected_source_uris (fun _ => none) (.pylist [" x ", ""]) ∧
    String.mk (pyStrip " x ".data) ≠ " x " := by
  decide

/-- C10 (amended): parsing accepts a structured list, a JSON-encoded string,
or a comma-separated fallback string; only the comma-separated fallback
normalizes — each returned element is the strip of one comma segment and
non-empty — while `None` yields `[]` and structured lists are returned
element-wise unchanged (untrimmed, empties kept). -/
theorem C10_parse_accepts_three_shapes (jsonLoads : String → Option PyRaw) :
    (∀ xs, parse_expected_source_uris jsonLoads (.pylist xs) = xs) ∧
    parse_expected_source_uris jsonLoads .pynone = [] ∧
    (∀ s xs, String.mk (pyStrip s.data) ≠ "" →
      jsonLoads (String.mk (pyStrip s.data)) = some (.pylist xs) →
      parse_expected_source_uris jsonLoads (.pystr s) = xs) ∧
    (∀ s : String, String.mk (pyStrip s.data) ≠ "" →
      jsonLoads (String.mk (pyStrip s.data)) = none →
      ∀ u ∈ parse_expected_source_uris jsonLoads (.pystr s),
        u ≠ "" ∧ ∃ seg ∈ pySplit ',' (pyStrip s.data),
          u = String.mk (pyStrip seg)) := by
  refine ⟨fun xs => rfl, rfl, ?_, ?_⟩
  · intro s xs hne hj
    simp only [parse_expected_source_uris, if_neg hne, hj]
  · intro s hne hj u hu
    simp only [parse_expected_source_uris, if_neg hne, hj] at hu
    have hmem := List.mem_filter.mp hu
    have hne' : u ≠ "" := of_decide_eq_true hmem.2
    obtain ⟨seg, hseg, rfl⟩ := List.mem_map.mp hmem.1
    exact ⟨hne', seg, hseg, rfl⟩

/-- Witness for C10 (amended): the comma-fallback on `"a, ,b"`, whose output
element `"a"` is a stripped non-empty segment. -/
theorem C10_parse_accepts_three_shapes_witness :
    "a" ≠ "" ∧ ∃ seg ∈ pySplit ',' (pyStrip "a, ,b".data),
      "a" = String.mk (pyStrip seg) :=
  (C10_parse_accepts_three_shapes (fun _ => none)).2.2.2 "a, ,b"
    (by decide) rfl "a" (by decide)

/-! ## Lexical retrieval engine (`retrieve/lexical.py`)

Scores are real numbers — the exact-arithmetic idealization of Python's
float arithmetic (`math.sqrt`, `math.exp`).  ISO-8601 timestamp parsing and
the `now` clock live outside the repository (`datetime`); they are abstracted
as `daysOld : String → Option ℤ`, standing for
`(now - datetime.fromisoformat(...)).days` (`none` = `ValueError`). -/

/-- `[a-zA-Z0-9_]` — the word-character class of `WORD_RE`. -/
def isWordChar (c : Char) : Bool :=
  ('a' ≤ c && c ≤ 'z') || ('A' ≤ c && c ≤ 'Z') || ('0' ≤ c && c ≤ '9') || c = '_'

/-- `WORD_RE.finditer` with `.lower()` on each match: scan the characters,
accumulating the current word-character run (reversed, lower-cased) and
emitting it when the run ends. -/
def tokenizeAux : List Char → List Char → List String
  | [], acc => if acc = [] then [] else [String.mk acc.reverse]
  | c :: rest, acc =>
    if isWordChar c then tokenizeAux rest (c.toLower :: acc)
    else if acc = [] then tokenizeAux rest []
    else String.mk acc.reverse :: tokenizeAux rest []

/-- `tokenize(text)` (`retrieve/lexical.py`). -/
def tokenize (text : String) : List String :=
  tokenizeAux text.data []

/-- `lexical_overlap_score(query_tokens, doc_tokens)`: term-frequency cosine
similarity.  `Counter` keys are the distinct tokens (`List.dedup`); the dot
product and the squared norms are sums of natural numbers. -/
noncomputable def lexicalOverlapScore (queryTokens docTokens : List String) : ℝ :=
  if queryTokens = [] ∨ docTokens = [] then 0
  else
    let dot : ℕ := (queryTokens.dedup.map
      (fun t => queryTokens.count t * docTokens.count t)).sum
    let qnorm : ℝ := Real.sqrt ((queryTokens.dedup.map
      (fun t => queryTokens.count t ^ 2)).sum : ℕ)
    let dnorm : ℝ := Real.sqrt ((docTokens.dedup.map
      (fun t => docTokens.count t ^ 2)).sum : ℕ)
    if qnorm = 0 ∨ dnorm = 0 then 0
    else (dot : ℝ) / (qnorm * dnorm)

/-- `recency_score(timestamp, now)`: `0.0` for a missing or empty timestamp
and for a `ValueError` from parsing; otherwise
`exp(-max(days_old, 0) / 45)`. -/
noncomputable def recencyScoreOf (daysOld : String → Option ℤ)
    (timestamp : Option String) : ℝ :=
  match timestamp with
  | none => 0
  | some ts =>
    if ts = "" then 0
    else
      match daysOld ts with
      | none => 0
      | some d => Real.exp (-((max d 0 : ℤ) : ℝ) / 45)

/-- A row of `retrieve`'s scored list (`RetrievalHit`). -/
structure RetrievalHit where
  chunk_id : Nat
  source_id : Nat
  source_type : String
  source_uri : String
  source_timestamp : Option String
  title : Option String
  chunk_index : Nat
  chunk_text : String
  score : ℝ
  lexical_score : ℝ
  recency_score : ℝ

/-- The full-scan `SELECT ... FROM evidence_chunks c JOIN sources s ON
s.id = c.source_id` (nested-loop order: chunks, then their matching
sources). -/
def scanRows (db : Db) : List (ChunkRow × SourceRow) :=
  db.chunks.flatMap (fun c =>
    (db.sources.filter (fun s => s.id == c.source_id)).map (fun s => (c, s)))

/-- The `RetrievalHit(...)` record built in `retrieve`'s scan loop. -/
noncomputable def mkHit (daysOld : String → Option ℤ)
    (queryTokens : List String) (r : ChunkRow × SourceRow) : RetrievalHit :=
  let lex := lexicalOverlapScore queryTokens (tokenize r.1.chunk_text)
  let recency := recencyScoreOf daysOld r.2.timestamp
  { chunk_id := r.1.id, source_id := r.1.source_id,
    source_type := r.2.source_type, source_uri := r.2.source_uri,
    source_timestamp := r.2.timestamp, title := r.2.title,
    chunk_index := r.1.chunk_index, chunk_text := r.1.chunk_text,
    score := 0.85 * lex + 0.15 * recency,
    lexical_score := lex, recency_score := recency }

/-- The scan loop of `retrieve`: tokenize each chunk, skip rows with
`lex <= 0`, score the rest in scan order. -/
noncomputable def scoredHits (daysOld : String → Option ℤ) (db : Db)
    (queryTokens : List String) : List RetrievalHit :=
  (scanRows db).filterMap (fun r =>
    if lexicalOverlapScore queryTokens (tokenize r.1.chunk_text) ≤ 0 then none
    else some (mkHit daysOld queryTokens r))

/-- `retrieve(conn, query, top_k)`: empty token list → `[]`; otherwise sort
the scored rows by combined score descending (Python's stable `list.sort`
with `reverse=True`, i.e. a stable insertion sort under
`b.score ≤ a.score`) and take the first `top_k`. -/
noncomputable def retrieve (daysOld : String → Option ℤ) (db : Db)
    (query : String) (top_k : Nat) : List RetrievalHit :=
  let queryTokens := tokenize query
  if queryTokens = [] then []
  else
    (List.insertionSort (fun a b : RetrievalHit => b.score ≤ a.score)
      (scoredHits daysOld db queryTokens)).take top_k

instance : IsTotal RetrievalHit (fun a b => b.score ≤ a.score) :=
  ⟨fun a b => le_total b.score a.score⟩

instance : IsTrans RetrievalHit (fun a b => b.score ≤ a.score) :=
  ⟨fun _ _ _ hab hbc => le_trans hbc hab⟩

theorem dot_pos_iff (qt dt : List String) :
    0 < (qt.dedup.map (fun t => qt.count t * dt.count t)).sum ↔
      ∃ t ∈ qt, t ∈ dt := by
  constructor
  · intro h
    by_contra hno
    push_neg at hno
    have hz : (qt.dedup.map (fun t => qt.count t * dt.count t)).sum = 0 := by
      rw [List.sum_eq_zero_iff]
      intro x hx
      obtain ⟨t, ht, rfl⟩ := List.mem_map.mp hx
      have htq : t ∈ qt := List.mem_dedup.mp ht
      have hd0 : dt.count t = 0 := List.count_eq_zero.mpr (hno t htq)
      simp [hd0]
    omega
  · rintro ⟨t, htq, htd⟩
    have hterm : 0 < qt.count t * dt.count t :=
      Nat.mul_pos (List.count_pos_iff.mpr htq) (List.count_pos_iff.mpr htd)
    have hmem : qt.count t * dt.count t ∈
        qt.dedup.map (fun t => qt.count t * dt.count t) :=
      List.mem_map.mpr ⟨t, List.mem_dedup.mpr htq, rfl⟩
    exact lt_of_lt_of_le hterm
      (List.single_le_sum (fun x _ => Nat.zero_le x) _ hmem)

theorem normsq_pos {l : List String} (h : l ≠ []) :
    0 < (l.dedup.map (fun t => l.count t ^ 2)).sum := by
  obtain ⟨t, ht⟩ := List.exists_mem_of_ne_nil l h
  have hterm : 0 < l.count t ^ 2 :=
    pow_pos (List.count_pos_iff.mpr ht) 2
  have hmem : l.count t ^ 2 ∈ l.dedup.map (fun t => l.count t ^ 2) :=
    List.mem_map.mpr ⟨t, List.mem_dedup.mpr ht, rfl⟩
  exact lt_of_lt_of_le hterm
    (List.single_le_sum (fun x _ => Nat.zero_le x) _ hmem)

theorem lexicalOverlapScore_pos_iff (qt dt : List String) :
    0 < lexicalOverlapScore qt dt ↔ ∃ t ∈ qt, t ∈ dt := by
  by_cases hempty : qt = [] ∨ dt = []
  · simp only [lexicalOverlapScore, if_pos hempty]
    constructor
    · intro h; exact absurd h (lt_irrefl 0)
    · rintro ⟨t, htq, htd⟩
      rcases hempty with h | h
      · subst h; simp at htq
      · subst h; simp at htd
  · push_neg at hempty
    have hqn : (0 : ℝ) < Real.sqrt ((qt.dedup.map
        (fun t => qt.count t ^ 2)).sum : ℕ) :=
      Real.sqrt_pos.mpr (by exact_mod_cast normsq_pos hempty.1)
    have hdn : (0 : ℝ) < Real.sqrt ((dt.dedup.map
        (fun t => dt.count t ^ 2)).sum : ℕ) :=
      Real.sqrt_pos.mpr (by exact_mod_cast normsq_pos hempty.2)
    simp only [lexicalOverlapScore,
      if_neg (by push_neg; exact hempty :
        ¬ (qt = [] ∨ dt = [])),
      if_neg (by push_neg; exact ⟨ne_of_gt hqn, ne_of_gt hdn⟩ :
        ¬ (Real.sqrt ((qt.dedup.map (fun t => qt.count t ^ 2)).sum : ℕ) = 0 ∨
           Real.sqrt ((dt.dedup.map (fun t => dt.count t ^ 2)).sum : ℕ) = 0))]
    constructor
    · intro h
      rw [div_pos_iff] at h
      rcases h with ⟨hdot, -⟩ | ⟨-, hneg⟩
      · exact (dot_pos_iff qt dt).mp (by exact_mod_cast hdot)
      · exact absurd hneg (not_lt.mpr (le_of_lt (mul_pos hqn hdn)))
    · intro hsh
      exact div_pos (by exact_mod_cast (dot_pos_iff qt dt).mpr hsh)
        (mul_pos hqn hdn)

theorem scoredHits_mem (daysOld : String → Option ℤ) (db : Db)
    (qt : List String) (hit : RetrievalHit) :
    hit ∈ scoredHits daysOld db qt ↔
      ∃ r ∈ scanRows db,
        0 < lexicalOverlapScore qt (tokenize r.1.chunk_text) ∧
        hit = mkHit daysOld qt r := by
  unfold scoredHits
  rw [List.mem_filterMap]
  constructor
  · rintro ⟨r, hr, hf⟩
    by_cases hlex : lexicalOverlapScore qt (tokenize r.1.chunk_text) ≤ 0
    · rw [if_pos hlex] at hf; cases hf
    · rw [if_neg hlex] at hf
      exact ⟨r, hr, lt_of_not_le hlex, (Option.some.inj hf).symm⟩
  · rintro ⟨r, hr, hlex, rfl⟩
    exact ⟨r, hr, by rw [if_neg (not_le.mpr hlex)]⟩

/-- C4: `retrieve(query, top_k)` returns `[]` when the query tokenizes to
zero word-character tokens; otherwise it returns the first `top_k` of exactly
the scanned chunks with positive lexical overlap (equivalently: sharing at
least one token with the query), each scored
`0.85 × TF-cosine + 0.15 × recency`, with recency `0` for a missing, empty,
or unparseable source timestamp, sorted descending by combined score (a
stable insertion sort under `b.score ≤ a.score`, Python's stable
`sort(reverse=True)` over scan order). -/
theorem C4_retrieve (daysOld : String → Option ℤ) (db : Db) (query : String)
    (top_k : Nat) :
    (tokenize query = [] → retrieve daysOld db query top_k = []) ∧
    (tokenize query ≠ [] →
      (retrieve daysOld db query top_k).length =
        min top_k (scoredHits daysOld db (tokenize query)).length) ∧
    List.Sorted (fun a b : RetrievalHit => b.score ≤ a.score)
      (retrieve daysOld db query top_k) ∧
    (tokenize query ≠ [] → ∃ rest,
      List.Perm (retrieve daysOld db query top_k ++ rest)
        (scoredHits daysOld db (tokenize query))) ∧
    (∀ hit ∈ retrieve daysOld db query top_k,
      hit ∈ scoredHits daysOld db (tokenize query)) ∧
    (∀ hit ∈ scoredHits daysOld db (tokenize query),
      hit.score = 0.85 * hit.lexical_score + 0.15 * hit.recency_score ∧
      0 < hit.lexical_score ∧
      ∃ r ∈ scanRows db,
        hit = mkHit daysOld (tokenize query) r ∧
        hit.lexical_score =
          lexicalOverlapScore (tokenize query) (tokenize r.1.chunk_text) ∧
        hit.recency_score = recencyScoreOf daysOld r.2.timestamp ∧
        ∃ t ∈ tokenize query, t ∈ tokenize r.1.chunk_text) ∧
    (∀ qt dt : List String,
      0 < lexicalOverlapScore qt dt ↔ ∃ t ∈ qt, t ∈ dt) ∧
    recencyScoreOf daysOld none = 0 ∧
    (∀ ts : String, ts ≠ "" → daysOld ts = none →
      recencyScoreOf daysOld (some ts) = 0) := by
  refine ⟨?_, ?_, ?_, ?_, ?_, ?_, lexicalOverlapScore_pos_iff, rfl, ?_⟩
  · intro h
    simp [retrieve, h]
  · intro h
    simp only [retrieve, if_neg h, List.length_take]
    rw [(List.perm_insertionSort _ _).length_eq]
  · by_cases h : tokenize query = []
    · simp [retrieve, h]
    · simp only [retrieve, if_neg h]
      exact List.Pairwise.sublist (List.take_sublist _ _)
        (List.sorted_insertionSort _ _)
  · intro h
    refine ⟨(List.insertionSort (fun a b : RetrievalHit => b.score ≤ a.score)
      (scoredHits daysOld db (tokenize query))).drop top_k, ?_⟩
    simp only [retrieve, if_neg h]
    rw [List.take_append_drop]
    exact List.perm_insertionSort _ _
  · intro hit hmem
    by_cases h : tokenize query = []
    · simp [retrieve, h] at hmem
    · simp only [retrieve, if_neg h] at hmem
      have hsorted := List.mem_of_mem_take hmem
      exact ((List.perm_insertionSort
        (fun a b : RetrievalHit => b.score ≤ a.score) _).mem_iff).mp hsorted
  · intro hit hmem
    obtain ⟨r, hr, hlex, rfl⟩ := (scoredHits_mem daysOld db _ hit).mp hmem
    refine ⟨rfl, hlex, r, hr, rfl, rfl, rfl, ?_⟩
    exact (lexicalOverlapScore_pos_iff _ _).mp hlex
  · intro ts hts hd
    simp [recencyScoreOf, hts, hd]

/-- Witness for C4: an empty query against the empty store retrieves
nothing. -/
theorem C4_retrieve_witness :
    retrieve (fun _ => none) emptyDb "  ;; " 5 = [] :=
  (C4_retrieve (fun _ => none) emptyDb "  ;; " 5).1 rfl

end CrossModalRAG
